import Mathlib

/-!
Verification of the swift-check byte-buffer predicate-evaluation engine.

The portable scalar backend (`src/arch/fallback.rs`) represents a register as a
`u128` packing 16 byte lanes (little endian); every operation there is defined
lane by lane (`for_each_byte` extracts each byte with shifts and masks).  We
embed that backend at lane granularity: a register value is the list of its 16
byte lanes, and each register operation is the lane-wise function the source
computes on the extracted bytes.  The scanner (`src/arch/fallback_scan.rs`) and
the facade (`src/lib.rs`) are embedded as written; the compile-time comparator
and range builders of `src/arch/mod.rs` are embedded twice, once for the
signed-comparison backends (`cfg_i8`) and once for the unsigned backends
(`cfg_u8`), as lane-level functions.
-/

namespace SwiftCheck

/-- One register value, as the list of its 16 byte lanes
(lane `i` is byte `i` of the `u128`, i.e. bits `8*i .. 8*i+7`). -/
abbrev Vec := List Nat

/-- Register width in bytes (`arch::WIDTH`). -/
def WIDTH : Nat := 16

/-- `fallback::splat`: broadcast one byte to every lane. -/
def splat (a : Nat) : Vec := List.replicate 16 a

/-- `fallback::eq`: lane-wise byte equality; a true lane is `1` (the source
sets only bit `8*i` of the `u128` result). -/
def eqv (a b : Vec) : Vec := List.zipWith (fun x y => if x = y then 1 else 0) a b

/-- `fallback::greater_than_or_eq` (native unsigned comparison). -/
def gev (a b : Vec) : Vec := List.zipWith (fun x y => if x ≥ y then 1 else 0) a b

/-- `fallback::greater_than`. -/
def gtv (a b : Vec) : Vec := List.zipWith (fun x y => if x > y then 1 else 0) a b

/-- `fallback::less_than_or_eq`. -/
def lev (a b : Vec) : Vec := List.zipWith (fun x y => if x ≤ y then 1 else 0) a b

/-- `fallback::less_than`. -/
def ltv (a b : Vec) : Vec := List.zipWith (fun x y => if x < y then 1 else 0) a b

/-- `fallback::not`: bitwise complement of the `u128`, i.e. each byte lane is
xor-ed with `0xFF`. -/
def notv (a : Vec) : Vec := a.map (fun x => Nat.xor x 255)

/-- `fallback::and`. -/
def andv (a b : Vec) : Vec := List.zipWith Nat.land a b

/-- `fallback::or`. -/
def orv (a b : Vec) : Vec := List.zipWith Nat.lor a b

/-- `fallback::xor`. -/
def xorv (a b : Vec) : Vec := List.zipWith Nat.xor a b

/-- `fallback::MoveMask::new`: bit `i` of the mask is bit `8*i` of the input,
i.e. the lowest bit of lane `i`. -/
def moveMask : Vec → Nat
  | [] => 0
  | x :: xs => x % 2 + 2 * moveMask xs

/-- `u16::trailing_zeros`, counting at most `k` bits (`k = 16` for the mask). -/
def tzAux : Nat → Nat → Nat
  | _, 0 => 0
  | m, k + 1 => if m % 2 = 1 then 0 else 1 + tzAux (m / 2) k

/-- `MoveMask::trailing_zeros` for a 16-bit mask (`0` maps to `16`,
which is `MoveMask::MAX_TRAIL`). -/
def trailingZeros16 (m : Nat) : Nat := tzAux m 16

/-- `u16::trailing_ones`, counting at most `k` bits. -/
def toAux : Nat → Nat → Nat
  | _, 0 => 0
  | m, k + 1 => if m % 2 = 1 then 1 + toAux (m / 2) k else 0

/-- `MoveMask::trailing_ones` for a 16-bit mask. -/
def trailingOnes16 (m : Nat) : Nat := toAux m 16

/-- `fallback::load_unchecked` on a slice: read the first 16 bytes. -/
def load_unchecked (data : List Nat) : Vec := data.take 16

/-- `fallback::load_partial`: the low `count` lanes hold the real bytes, the
remaining lanes are zero-filled. -/
def load_partial_lanes (data : List Nat) (count : Nat) : Vec :=
  data.take count ++ List.replicate (16 - count) 0

/-- `swift_check::find`: trailing zeros of the mask of the evaluated
condition, `none` when it reaches `MAX_TRAIL`. -/
def find (data : Vec) (cond : Vec → Vec) : Option Nat :=
  let len := trailingZeros16 (moveMask (cond data))
  if 16 ≤ len then none else some len

/-- `swift_check::ensure!`: all 16 mask bits set. -/
def ensure (data : Vec) (cond : Vec → Vec) : Bool :=
  decide (moveMask (cond data) = 65535)

/-- The `scan_all!` loop of `fallback_scan::search`: full windows at `idx`,
`idx + 16`, … while a full stride fits, then the tail window starting at
`len - 16` (re-reading part of the last stride) unless the strides covered
the buffer exactly.  Callers guarantee `16 ≤ data.length`. -/
def searchLoop (data : List Nat) (cond : Vec → Vec) (idx : Nat) : Option Nat :=
  if h : idx + 16 ≤ data.length then
    match find (load_unchecked (data.drop idx)) cond with
    | some p => some (p + idx)
    | none => searchLoop data cond (idx + 16)
  else if data.length - idx = 0 then none
  else
    (find (load_unchecked (data.drop (data.length - 16))) cond).map
      (· + (data.length - 16))
termination_by data.length + 16 - idx
decreasing_by omega

/-- The `scan_all!` loop of `fallback_scan::for_all_ensure`
(short-circuits on the first failing window). -/
def ensureLoop (data : List Nat) (cond : Vec → Vec) (idx : Nat) : Bool :=
  if h : idx + 16 ≤ data.length then
    if ensure (load_unchecked (data.drop idx)) cond then
      ensureLoop data cond (idx + 16)
    else false
  else if data.length - idx = 0 then true
  else ensure (load_unchecked (data.drop (data.length - 16))) cond
termination_by data.length + 16 - idx
decreasing_by omega

/-- The `scan_all!` loop of `fallback_scan::for_all_ensure_ct`
(accumulates with `&=`, never short-circuits). -/
def ensureCtLoop (data : List Nat) (cond : Vec → Vec) (idx : Nat) (res : Bool) : Bool :=
  if h : idx + 16 ≤ data.length then
    ensureCtLoop data cond (idx + 16) (res && ensure (load_unchecked (data.drop idx)) cond)
  else if data.length - idx = 0 then res
  else res && ensure (load_unchecked (data.drop (data.length - 16))) cond
termination_by data.length + 16 - idx
decreasing_by omega

/-- Facade `swift_check::search` (`src/lib.rs`): strided scan for buffers of at
least one register width, otherwise a single `load_partial` test whose
position is only accepted below the buffer length. -/
def search (data : List Nat) (cond : Vec → Vec) : Option Nat :=
  if 16 ≤ data.length then searchLoop data cond 0
  else
    let offset := trailingZeros16 (moveMask (cond (load_partial_lanes data data.length)))
    if offset < data.length then some offset else none

/-- Facade `swift_check::for_all_ensure`. -/
def for_all_ensure (data : List Nat) (cond : Vec → Vec) : Bool :=
  if 16 ≤ data.length then ensureLoop data cond 0
  else decide (data.length ≤ trailingOnes16 (moveMask (cond (load_partial_lanes data data.length))))

/-- Facade `swift_check::for_all_ensure_ct` (`valid` starts `true` and is
and-accumulated). -/
def for_all_ensure_ct (data : List Nat) (cond : Vec → Vec) : Bool :=
  if 16 ≤ data.length then ensureCtLoop data cond 0 true
  else
    true && decide (data.length ≤ trailingOnes16 (moveMask (cond (load_partial_lanes data data.length))))

/-- Abstract syntax of the predicates a caller can build from the exposed
constructors (`eq`, the `range!` family, `not`, `and`, `or`, `xor`). -/
inductive Cond where
  | ceq (b : Nat)
  | clt (c : Nat)
  | cle (c : Nat)
  | cgt (c : Nat)
  | cge (c : Nat)
  | crange (lo hi : Nat)
  | cexcl (lo hi : Nat)
  | cnot (c : Cond)
  | cand (a b : Cond)
  | cor (a b : Cond)
  | cxor (a b : Cond)

/-- The register function each constructor compiles to on the unsigned
(`cfg_u8`) fallback backend: `eq`, `not`, `and`, `or`, `xor` from
`src/lib.rs`, the comparator and range builders from the `cfg_u8` block of
`src/arch/mod.rs` (degenerate bounds are folded to broadcast constants,
`range` with `MIN == MAX` collapses to an equality test). -/
def evalV : Cond → Vec → Vec
  | .ceq b => fun data => eqv data (splat b)
  | .clt c => if c = 0 then fun _ => splat 0 else fun data => ltv data (splat c)
  | .cle c => if c = 255 then fun _ => splat 255 else fun data => lev data (splat c)
  | .cgt c => if c = 255 then fun _ => splat 0 else fun data => gtv data (splat c)
  | .cge c => if c = 0 then fun _ => splat 255 else fun data => gev data (splat c)
  | .crange lo hi =>
      if lo = hi then fun data => eqv data (splat lo)
      else fun data => andv (gev data (splat lo)) (lev data (splat hi))
  | .cexcl lo hi =>
      if lo = hi then fun _ => splat 0
      else fun data => andv (gtv data (splat lo)) (ltv data (splat hi))
  | .cnot c => fun data => notv (evalV c data)
  | .cand a b => fun data => andv (evalV a data) (evalV b data)
  | .cor a b => fun data => orv (evalV a data) (evalV b data)
  | .cxor a b => fun data => xorv (evalV a data) (evalV b data)

/-- Reference semantics of a predicate on one byte, as the specification
states it (plain unsigned comparisons and boolean connectives). -/
def evalB : Cond → Nat → Bool
  | .ceq b => fun v => decide (v = b)
  | .clt c => fun v => decide (v < c)
  | .cle c => fun v => decide (v ≤ c)
  | .cgt c => fun v => decide (c < v)
  | .cge c => fun v => decide (c ≤ v)
  | .crange lo hi => fun v => decide (lo ≤ v ∧ v ≤ hi)
  | .cexcl lo hi => fun v => decide (lo < v ∧ v < hi)
  | .cnot c => fun v => !(evalB c v)
  | .cand a b => fun v => evalB a v && evalB b v
  | .cor a b => fun v => evalB a v || evalB b v
  | .cxor a b => fun v => Bool.xor (evalB a v) (evalB b v)

/-- Truth of one lane as the fallback engine reads it: `MoveMask::new` keeps
exactly the lowest bit of each lane. -/
def laneBits (v : Vec) : List Bool := v.map (fun x => decide (x % 2 = 1))

/-- First index of a list satisfying a predicate (reference specification for
`search`): `some i` for the minimal hit index, `none` when nothing matches. -/
def firstIdx (p : α → Bool) : List α → Option Nat
  | [] => none
  | x :: xs => if p x then some 0 else (firstIdx p xs).map (· + 1)

/-- Mask value determined by a list of lane booleans (bit `i` set iff lane `i`
is true). -/
def boolsToNat : List Bool → Nat
  | [] => 0
  | b :: t => (if b then 1 else 0) + 2 * boolsToNat t

/-- Start offsets of the windows the `scan_all!` traversal reads, in order:
one per full stride, then the tail window at `len - 16` when the strides do
not cover the buffer exactly. -/
def windowStarts (len idx : Nat) : List Nat :=
  if idx + 16 ≤ len then idx :: windowStarts len (idx + 16)
  else if len - idx = 0 then [] else [len - 16]
termination_by len + 16 - idx
decreasing_by omega

/-! Lane-level model of the signed-comparison backends (`cfg_i8`:
x86_64 sse2 / wasm simd128).  Hardware comparisons interpret each byte as a
signed `i8` and produce all-ones (`0xFF`) or all-zero lanes; `movemask` reads
the top bit of each lane. -/

/-- A byte reinterpreted as a signed `i8`. -/
def toI8 (v : Nat) : Int := if v < 128 then (v : Int) else (v : Int) - 256

/-- Lane of `_mm_cmpeq_epi8`. -/
def eqI8 (a b : Nat) : Nat := if a = b then 255 else 0

/-- Lane of `_mm_cmpgt_epi8` (signed). -/
def gtI8 (a b : Nat) : Nat := if toI8 b < toI8 a then 255 else 0

/-- Lane of `_mm_cmplt_epi8` (signed). -/
def ltI8 (a b : Nat) : Nat := if toI8 a < toI8 b then 255 else 0

/-- Lane of `x86_64::not` (xor with all bits set). -/
def notI8 (a : Nat) : Nat := Nat.xor a 255

/-- Lane of `x86_64::greater_than_or_eq` (complement of `less_than`). -/
def geI8 (a b : Nat) : Nat := notI8 (ltI8 a b)

/-- Lane of `x86_64::less_than_or_eq` (complement of `greater_than`). -/
def leI8 (a b : Nat) : Nat := notI8 (gtI8 a b)

/-- Lane of `x86_64::and`. -/
def andI8 (a b : Nat) : Nat := Nat.land a b

/-- Lane of `x86_64::or`. -/
def orI8 (a b : Nat) : Nat := Nat.lor a b

/-- `arch::greater_than::<MIN>` of the `cfg_i8` block (one lane): `255` folds
to broadcast zero, bounds of `128..=254` use the "negative AND above MIN"
form, lower bounds use the "negative OR above MIN" form. -/
def greater_thanI8 (mn : Nat) : Nat → Nat :=
  if mn = 255 then fun _ => 0
  else if 128 ≤ mn then fun v => andI8 (ltI8 v 0) (gtI8 v mn)
  else fun v => orI8 (ltI8 v 0) (gtI8 v mn)

/-- `arch::greater_than_or_eq::<MIN>` of the `cfg_i8` block (one lane). -/
def greater_than_or_eqI8 (mn : Nat) : Nat → Nat :=
  if mn = 255 then fun v => eqI8 v 255
  else if 128 ≤ mn then fun v => andI8 (ltI8 v 0) (geI8 v mn)
  else if mn = 0 then fun _ => 255
  else fun v => orI8 (ltI8 v 0) (geI8 v mn)

/-- `arch::less_than::<MAX>` of the `cfg_i8` block (one lane). -/
def less_thanI8 (mx : Nat) : Nat → Nat :=
  if 128 ≤ mx then fun v => orI8 (geI8 v 0) (ltI8 v mx)
  else if mx = 0 then fun _ => 0
  else fun v => andI8 (geI8 v 0) (ltI8 v mx)

/-- `arch::less_than_or_eq::<MAX>` of the `cfg_i8` block (one lane). -/
def less_than_or_eqI8 (mx : Nat) : Nat → Nat :=
  if mx = 255 then fun _ => 255
  else if 128 ≤ mx then fun v => orI8 (geI8 v 0) (leI8 v mx)
  else if mx = 0 then fun v => eqI8 v 0
  else fun v => andI8 (geI8 v 0) (leI8 v mx)

/-- `arch::range::<MIN, MAX>` of the `cfg_i8` block (one lane): equality when
the bounds agree, an OR of the two overflow-safe bound tests when the range
straddles 128, an AND of them when both bounds are on the same side. -/
def rangeI8 (mn mx : Nat) : Nat → Nat :=
  if mn = mx then fun v => eqI8 v mn
  else if mn ≤ 127 ∧ 129 ≤ mx then fun v => orI8 (geI8 v mn) (leI8 v mx)
  else if mn ≤ 127 ∧ mx = 128 then fun v => orI8 (geI8 v mn) (eqI8 v 128)
  else fun v => andI8 (geI8 v mn) (leI8 v mx)

/-- `arch::exclusive_range::<MIN, MAX>` of the `cfg_i8` block (one lane):
adjacent bounds fold to broadcast zero, otherwise the strict-comparator
version of `rangeI8` (with `MAX = 128` handled by a single strict lower
bound test). -/
def exclusive_rangeI8 (mn mx : Nat) : Nat → Nat :=
  if Nat.dist mn mx = 1 then fun _ => 0
  else if mn = mx then fun _ => 0
  else if mn ≤ 127 ∧ 129 ≤ mx then fun v => orI8 (gtI8 v mn) (ltI8 v mx)
  else if mn ≤ 127 ∧ mx = 128 then fun v => gtI8 v mn
  else fun v => andI8 (gtI8 v mn) (ltI8 v mx)

/-! Lane-level model of the `cfg_u8` comparator builders (the fallback and
NEON backends, whose comparisons are natively unsigned).  On the fallback a
true comparison lane is `1` and a broadcast `0xFF` lane is `255`; the engine
only ever reads the lowest bit of a lane. -/

/-- One lane of the fallback's unsigned `eq`. -/
def eqU8 (a b : Nat) : Nat := if a = b then 1 else 0

/-- One lane of the fallback's unsigned `greater_than`. -/
def gtU8 (a b : Nat) : Nat := if b < a then 1 else 0

/-- One lane of the fallback's unsigned `greater_than_or_eq`. -/
def geU8 (a b : Nat) : Nat := if b ≤ a then 1 else 0

/-- One lane of the fallback's unsigned `less_than`. -/
def ltU8 (a b : Nat) : Nat := if a < b then 1 else 0

/-- One lane of the fallback's unsigned `less_than_or_eq`. -/
def leU8 (a b : Nat) : Nat := if a ≤ b then 1 else 0

/-- `arch::less_than::<MAX>` of the `cfg_u8` block (one lane). -/
def less_thanU8 (mx : Nat) : Nat → Nat :=
  if mx = 0 then fun _ => 0 else fun v => ltU8 v mx

/-- `arch::less_than_or_eq::<MAX>` of the `cfg_u8` block (one lane). -/
def less_than_or_eqU8 (mx : Nat) : Nat → Nat :=
  if mx = 255 then fun _ => 255 else fun v => leU8 v mx

/-- `arch::greater_than::<MIN>` of the `cfg_u8` block (one lane). -/
def greater_thanU8 (mn : Nat) : Nat → Nat :=
  if mn = 255 then fun _ => 0 else fun v => gtU8 v mn

/-- `arch::greater_than_or_eq::<MIN>` of the `cfg_u8` block (one lane). -/
def greater_than_or_eqU8 (mn : Nat) : Nat → Nat :=
  if mn = 0 then fun _ => 255 else fun v => geU8 v mn

/-- `arch::range::<MIN, MAX>` of the `cfg_u8` block (one lane). -/
def rangeU8 (mn mx : Nat) : Nat → Nat :=
  if mn = mx then fun v => eqU8 v mn
  else fun v => Nat.land (geU8 v mn) (leU8 v mx)

/-- `arch::exclusive_range::<MIN, MAX>` of the `cfg_u8` block (one lane); the
match guard `MIN == MAX` applies to the whole first arm, so only the empty
range folds to the broadcast constant. -/
def exclusive_rangeU8 (mn mx : Nat) : Nat → Nat :=
  if mn = mx then fun _ => 0
  else fun v => Nat.land (gtU8 v mn) (ltU8 v mx)

/-- Lane truth on the signed backends: `movemask` reads bit 7 of each lane. -/
def laneTrueI8 (x : Nat) : Bool := x.testBit 7

/-- Lane truth on the fallback backend: `MoveMask::new` reads bit 0 of each
lane. -/
def laneTrueU8 (x : Nat) : Bool := decide (x % 2 = 1)

/-! Combinator algebra (`src/lib.rs`): the `one_of!` macro for 2, 3 and 4
operands. Two operands compile to a plain `xor`; three and four operands
compile to `__one_of!`: the xor-fold of all operands AND the complement of
their and-fold. -/

/-- `one_of!(a, b)`. -/
def oneOf2 (a b : Vec → Vec) : Vec → Vec :=
  fun data => xorv (a data) (b data)

/-- `one_of!(a, b, c)` (`__one_of!` with three operands). -/
def oneOf3 (a b c : Vec → Vec) : Vec → Vec :=
  fun data =>
    andv (xorv (xorv (a data) (b data)) (c data))
      (notv (andv (andv (a data) (b data)) (c data)))

/-- `one_of!(a, b, c, d)` (`__one_of!` with four operands; both folds
associate as two pairs). -/
def oneOf4 (a b c d : Vec → Vec) : Vec → Vec :=
  fun data =>
    andv (xorv (xorv (a data) (b data)) (xorv (c data) (d data)))
      (notv (andv (andv (a data) (b data)) (andv (c data) (d data))))

/-! Lane truth lemmas for the signed (`cfg_i8`) backend model. -/

lemma laneTrueI8_orI8 (x y : Nat) : laneTrueI8 (orI8 x y) = (laneTrueI8 x || laneTrueI8 y) := by
  unfold laneTrueI8 orI8
  exact Nat.testBit_lor x y 7

lemma laneTrueI8_andI8 (x y : Nat) : laneTrueI8 (andI8 x y) = (laneTrueI8 x && laneTrueI8 y) := by
  unfold laneTrueI8 andI8
  exact Nat.testBit_land x y 7

lemma laneTrueI8_notI8 (x : Nat) : laneTrueI8 (notI8 x) = !laneTrueI8 x := by
  unfold laneTrueI8 notI8
  rw [show Nat.xor x 255 = x ^^^ 255 from rfl, Nat.testBit_xor,
    show Nat.testBit 255 7 = true from rfl, Bool.xor_true]

lemma laneTrueI8_eqI8 (a b : Nat) : laneTrueI8 (eqI8 a b) = decide (a = b) := by
  by_cases h : a = b <;> simp [eqI8, laneTrueI8, h] <;> decide

lemma laneTrueI8_gtI8 (a b : Nat) : laneTrueI8 (gtI8 a b) = decide (toI8 b < toI8 a) := by
  by_cases h : toI8 b < toI8 a <;> simp [gtI8, laneTrueI8, h] <;> decide

lemma laneTrueI8_ltI8 (a b : Nat) : laneTrueI8 (ltI8 a b) = decide (toI8 a < toI8 b) := by
  by_cases h : toI8 a < toI8 b <;> simp [ltI8, laneTrueI8, h] <;> decide

lemma laneTrueI8_geI8 (a b : Nat) : laneTrueI8 (geI8 a b) = decide (toI8 b ≤ toI8 a) := by
  rw [geI8, laneTrueI8_notI8, laneTrueI8_ltI8]
  by_cases h : toI8 a < toI8 b <;> simp [h] <;> omega

lemma laneTrueI8_leI8 (a b : Nat) : laneTrueI8 (leI8 a b) = decide (toI8 a ≤ toI8 b) := by
  rw [leI8, laneTrueI8_notI8, laneTrueI8_gtI8]
  by_cases h : toI8 b < toI8 a <;> simp [h] <;> omega

lemma laneTrueI8_zero : laneTrueI8 0 = false := by decide

lemma laneTrueI8_255 : laneTrueI8 255 = true := by decide

/-! Lane truth lemmas for the unsigned (`cfg_u8`) fallback model. -/

lemma laneTrueU8_land (x y : Nat) :
    laneTrueU8 (Nat.land x y) = (laneTrueU8 x && laneTrueU8 y) := by
  simp only [laneTrueU8, ← Nat.testBit_zero]
  exact Nat.testBit_land x y 0

lemma laneTrueU8_eqU8 (a b : Nat) : laneTrueU8 (eqU8 a b) = decide (a = b) := by
  by_cases h : a = b <;> simp [eqU8, laneTrueU8, h]

lemma laneTrueU8_gtU8 (a b : Nat) : laneTrueU8 (gtU8 a b) = decide (b < a) := by
  by_cases h : b < a <;> simp [gtU8, laneTrueU8, h]

lemma laneTrueU8_geU8 (a b : Nat) : laneTrueU8 (geU8 a b) = decide (b ≤ a) := by
  by_cases h : b ≤ a <;> simp [geU8, laneTrueU8, h]

lemma laneTrueU8_ltU8 (a b : Nat) : laneTrueU8 (ltU8 a b) = decide (a < b) := by
  by_cases h : a < b <;> simp [ltU8, laneTrueU8, h]

lemma laneTrueU8_leU8 (a b : Nat) : laneTrueU8 (leU8 a b) = decide (a ≤ b) := by
  by_cases h : a ≤ b <;> simp [leU8, laneTrueU8, h]

lemma laneTrueU8_zero : laneTrueU8 0 = false := by decide

lemma laneTrueU8_255 : laneTrueU8 255 = true := by decide

/-! Correctness of the compiled comparators, both backends. -/

lemma less_thanI8_spec (mx v : Nat) (hmx : mx ≤ 255) (hv : v ≤ 255) :
    (laneTrueI8 (less_thanI8 mx v) = true) ↔ v < mx := by
  unfold less_thanI8
  split_ifs with h1 h2 <;>
    simp only [laneTrueI8_orI8, laneTrueI8_andI8, laneTrueI8_geI8, laneTrueI8_ltI8,
      laneTrueI8_zero, laneTrueI8_255, Bool.false_eq_true, false_iff, eq_self_iff_true,
      true_iff, Bool.or_eq_true, Bool.and_eq_true, decide_eq_true_eq, toI8] <;>
    (try split_ifs) <;> omega

lemma less_than_or_eqI8_spec (mx v : Nat) (hmx : mx ≤ 255) (hv : v ≤ 255) :
    (laneTrueI8 (less_than_or_eqI8 mx v) = true) ↔ v ≤ mx := by
  unfold less_than_or_eqI8
  split_ifs with h1 h2 h3 <;>
    simp only [laneTrueI8_orI8, laneTrueI8_andI8, laneTrueI8_geI8, laneTrueI8_leI8,
      laneTrueI8_eqI8, laneTrueI8_zero, laneTrueI8_255, Bool.false_eq_true, false_iff,
      eq_self_iff_true, true_iff, Bool.or_eq_true, Bool.and_eq_true,
      decide_eq_true_eq, toI8] <;>
    (try split_ifs) <;> omega

lemma greater_thanI8_spec (mn v : Nat) (hmn : mn ≤ 255) (hv : v ≤ 255) :
    (laneTrueI8 (greater_thanI8 mn v) = true) ↔ mn < v := by
  unfold greater_thanI8
  split_ifs with h1 h2 <;>
    simp only [laneTrueI8_orI8, laneTrueI8_andI8, laneTrueI8_ltI8, laneTrueI8_gtI8,
      laneTrueI8_zero, laneTrueI8_255, Bool.false_eq_true, false_iff, eq_self_iff_true,
      true_iff, Bool.or_eq_true, Bool.and_eq_true, decide_eq_true_eq, toI8] <;>
    (try split_ifs) <;> omega

lemma greater_than_or_eqI8_spec (mn v : Nat) (hmn : mn ≤ 255) (hv : v ≤ 255) :
    (laneTrueI8 (greater_than_or_eqI8 mn v) = true) ↔ mn ≤ v := by
  unfold greater_than_or_eqI8
  split_ifs with h1 h2 h3 <;>
    simp only [laneTrueI8_orI8, laneTrueI8_andI8, laneTrueI8_ltI8, laneTrueI8_geI8,
      laneTrueI8_eqI8, laneTrueI8_zero, laneTrueI8_255, Bool.false_eq_true, false_iff,
      eq_self_iff_true, true_iff, Bool.or_eq_true, Bool.and_eq_true,
      decide_eq_true_eq, toI8] <;>
    (try split_ifs) <;> omega

lemma less_thanU8_spec (mx v : Nat) :
    (laneTrueU8 (less_thanU8 mx v) = true) ↔ v < mx := by
  unfold less_thanU8
  split_ifs with h
  · rw [laneTrueU8_zero]
    simp only [Bool.false_eq_true, false_iff]
    omega
  · rw [laneTrueU8_ltU8]
    simp

lemma less_than_or_eqU8_spec (mx v : Nat) (hv : v ≤ 255) :
    (laneTrueU8 (less_than_or_eqU8 mx v) = true) ↔ v ≤ mx := by
  unfold less_than_or_eqU8
  split_ifs with h
  · rw [laneTrueU8_255]
    simp only [eq_self_iff_true, true_iff]
    omega
  · rw [laneTrueU8_leU8]
    simp

lemma greater_thanU8_spec (mn v : Nat) (hv : v ≤ 255) :
    (laneTrueU8 (greater_thanU8 mn v) = true) ↔ mn < v := by
  unfold greater_thanU8
  split_ifs with h
  · rw [laneTrueU8_zero]
    simp only [Bool.false_eq_true, false_iff]
    omega
  · rw [laneTrueU8_gtU8]
    simp

lemma greater_than_or_eqU8_spec (mn v : Nat) :
    (laneTrueU8 (greater_than_or_eqU8 mn v) = true) ↔ mn ≤ v := by
  unfold greater_than_or_eqU8
  split_ifs with h
  · rw [laneTrueU8_255]
    simp only [eq_self_iff_true, true_iff]
    omega
  · rw [laneTrueU8_geU8]
    simp

lemma rangeI8_spec (mn mx v : Nat) (hle : mn ≤ mx) (hmx : mx ≤ 255) (hv : v ≤ 255) :
    (laneTrueI8 (rangeI8 mn mx v) = true) ↔ (mn ≤ v ∧ v ≤ mx) := by
  unfold rangeI8
  split_ifs with h1 h2 h3 <;>
    simp only [laneTrueI8_orI8, laneTrueI8_andI8, laneTrueI8_geI8, laneTrueI8_leI8,
      laneTrueI8_eqI8, Bool.or_eq_true, Bool.and_eq_true, decide_eq_true_eq, toI8] <;>
    (try split_ifs) <;> omega

lemma rangeU8_spec (mn mx v : Nat) :
    (laneTrueU8 (rangeU8 mn mx v) = true) ↔ (mn ≤ v ∧ v ≤ mx) := by
  unfold rangeU8
  split_ifs with h1 <;>
    simp only [laneTrueU8_land, laneTrueU8_eqU8, laneTrueU8_geU8, laneTrueU8_leU8,
      Bool.and_eq_true, decide_eq_true_eq] <;>
    omega

lemma exclusive_rangeI8_spec (mn mx v : Nat) (hle : mn ≤ mx) (hmx : mx ≤ 255) (hv : v ≤ 255) :
    (laneTrueI8 (exclusive_rangeI8 mn mx v) = true) ↔ (mn < v ∧ v < mx) := by
  unfold exclusive_rangeI8
  split_ifs with h1 h2 h3 h4 <;>
    simp only [Nat.dist] at h1 <;>
    simp only [laneTrueI8_orI8, laneTrueI8_andI8, laneTrueI8_gtI8, laneTrueI8_ltI8,
      laneTrueI8_zero, Bool.false_eq_true, false_iff, Bool.or_eq_true, Bool.and_eq_true,
      decide_eq_true_eq, not_and, not_lt, toI8] <;>
    (try split_ifs) <;> omega

lemma exclusive_rangeU8_spec (mn mx v : Nat) :
    (laneTrueU8 (exclusive_rangeU8 mn mx v) = true) ↔ (mn < v ∧ v < mx) := by
  unfold exclusive_rangeU8
  split_ifs with h1
  · rw [laneTrueU8_zero]
    simp only [Bool.false_eq_true, false_iff]
    omega
  · simp only [laneTrueU8_land, laneTrueU8_gtU8, laneTrueU8_ltU8,
      Bool.and_eq_true, decide_eq_true_eq]

/-! Parity (lowest lane bit) lemmas for the bitwise register operations: the
fallback `MoveMask` reads only bit `8*i` of the `u128`, i.e. bit 0 of each
lane, and the bitwise operations act on that bit independently of the rest
of the lane. -/

lemma parity_xor (a b : Nat) :
    decide ((Nat.xor a b) % 2 = 1) = Bool.xor (decide (a % 2 = 1)) (decide (b % 2 = 1)) := by
  simp only [← Nat.testBit_zero]
  exact Nat.testBit_xor a b 0

lemma parity_land (a b : Nat) :
    decide ((Nat.land a b) % 2 = 1) = (decide (a % 2 = 1) && decide (b % 2 = 1)) := by
  simp only [← Nat.testBit_zero]
  exact Nat.testBit_land a b 0

lemma parity_lor (a b : Nat) :
    decide ((Nat.lor a b) % 2 = 1) = (decide (a % 2 = 1) || decide (b % 2 = 1)) := by
  simp only [← Nat.testBit_zero]
  exact Nat.testBit_lor a b 0

lemma zipWith_replicate_right (f : Nat → Nat → Nat) (l : List Nat) (n : Nat) (b : Nat)
    (h : l.length ≤ n) : List.zipWith f l (List.replicate n b) = l.map (fun x => f x b) := by
  induction l generalizing n with
  | nil => simp
  | cons x xs ih =>
      cases n with
      | zero => simp at h
      | succ k =>
          simp only [List.replicate_succ, List.zipWith_cons_cons, List.map_cons]
          rw [ih k (by simpa using h)]

lemma evalV_length (c : Cond) (w : Vec) (h : w.length = 16) : (evalV c w).length = 16 := by
  induction c with
  | ceq b => simp [evalV, eqv, splat, h]
  | clt c => unfold evalV; split <;> simp [ltv, splat, h]
  | cle c => unfold evalV; split <;> simp [lev, splat, h]
  | cgt c => unfold evalV; split <;> simp [gtv, splat, h]
  | cge c => unfold evalV; split <;> simp [gev, splat, h]
  | crange lo hi => unfold evalV; split <;> simp [eqv, andv, gev, lev, splat, h]
  | cexcl lo hi => unfold evalV; split <;> simp [andv, gtv, ltv, splat, h]
  | cnot c ih => simp [evalV, notv, ih]
  | cand a b iha ihb => simp [evalV, andv, iha, ihb]
  | cor a b iha ihb => simp [evalV, orv, iha, ihb]
  | cxor a b iha ihb => simp [evalV, xorv, iha, ihb]

lemma laneBits_length (v : Vec) : (laneBits v).length = v.length := by
  simp [laneBits]

lemma laneBits_notv (v : Vec) : laneBits (notv v) = (laneBits v).map (fun b => !b) := by
  unfold laneBits notv
  rw [List.map_map, List.map_map]
  refine List.map_congr_left fun a _ => ?_
  simp only [Function.comp_apply, parity_xor]
  simp

lemma laneBits_andv (a b : Vec) :
    laneBits (andv a b) = List.zipWith (fun x y => x && y) (laneBits a) (laneBits b) := by
  unfold laneBits andv
  rw [List.map_zipWith, List.zipWith_map]
  simp only [parity_land]

lemma laneBits_orv (a b : Vec) :
    laneBits (orv a b) = List.zipWith (fun x y => x || y) (laneBits a) (laneBits b) := by
  unfold laneBits orv
  rw [List.map_zipWith, List.zipWith_map]
  simp only [parity_lor]

lemma laneBits_xorv (a b : Vec) :
    laneBits (xorv a b) = List.zipWith (fun x y => Bool.xor x y) (laneBits a) (laneBits b) := by
  unfold laneBits xorv
  rw [List.map_zipWith, List.zipWith_map]
  simp only [parity_xor]

lemma zipWith_map_same (f : β → β → γ) (g h : α → β) (l : List α) :
    List.zipWith f (l.map g) (l.map h) = l.map (fun x => f (g x) (h x)) := by
  induction l with
  | nil => rfl
  | cons x xs ih => simp [ih]

/-- Main lane-correctness lemma for the fallback backend: for every compiled
predicate, the lowest bit of each output lane is exactly the reference
boolean of that lane's input byte. -/
lemma laneBits_evalV (c : Cond) (w : Vec) (hlen : w.length = 16)
    (hw : ∀ b ∈ w, b < 256) : laneBits (evalV c w) = w.map (evalB c) := by
  induction c with
  | ceq b =>
      unfold evalV eqv laneBits
      rw [splat, zipWith_replicate_right _ _ _ _ (by omega), List.map_map]
      refine List.map_congr_left fun a _ => ?_
      by_cases h : a = b <;> simp [evalB, h]
  | clt c =>
      unfold evalV
      split
      · next h =>
          subst h
          unfold laneBits splat
          beta_reduce
          rw [List.map_replicate]
          rw [show w.map (evalB (.clt 0)) = w.map (fun _ => false) from
            List.map_congr_left fun a _ => by simp [evalB]]
          simp [List.map_const', hlen]
      · unfold ltv laneBits
        beta_reduce
        rw [splat, zipWith_replicate_right _ _ _ _ (by omega), List.map_map]
        refine List.map_congr_left fun a _ => ?_
        by_cases h : a < c <;> simp [evalB, h]
  | cle c =>
      unfold evalV
      split
      · next h =>
          subst h
          unfold laneBits splat
          beta_reduce
          rw [List.map_replicate]
          rw [show w.map (evalB (.cle 255)) = w.map (fun _ => true) from
            List.map_congr_left fun a ha => by
              have := hw a ha
              simp [evalB]
              omega]
          simp [List.map_const', hlen]
      · unfold lev laneBits
        beta_reduce
        rw [splat, zipWith_replicate_right _ _ _ _ (by omega), List.map_map]
        refine List.map_congr_left fun a _ => ?_
        by_cases h : a ≤ c <;> simp [evalB, h]
  | cgt c =>
      unfold evalV
      split
      · next h =>
          subst h
          unfold laneBits splat
          beta_reduce
          rw [List.map_replicate]
          rw [show w.map (evalB (.cgt 255)) = w.map (fun _ => false) from
            List.map_congr_left fun a ha => by
              have := hw a ha
              simp [evalB]
              omega]
          simp [List.map_const', hlen]
      · unfold gtv laneBits
        beta_reduce
        rw [splat, zipWith_replicate_right _ _ _ _ (by omega), List.map_map]
        refine List.map_congr_left fun a _ => ?_
        by_cases h : c < a <;> simp [evalB, h]
  | cge c =>
      unfold evalV
      split
      · next h =>
          subst h
          unfold laneBits splat
          beta_reduce
          rw [List.map_replicate]
          rw [show w.map (evalB (.cge 0)) = w.map (fun _ => true) from
            List.map_congr_left fun a _ => by simp [evalB]]
          simp [List.map_const', hlen]
      · unfold gev laneBits
        beta_reduce
        rw [splat, zipWith_replicate_right _ _ _ _ (by omega), List.map_map]
        refine List.map_congr_left fun a _ => ?_
        by_cases h : c ≤ a <;> simp [evalB, h]
  | crange lo hi =>
      unfold evalV
      split
      · next h =>
          subst h
          unfold eqv laneBits
          beta_reduce
          rw [splat, zipWith_replicate_right _ _ _ _ (by omega), List.map_map]
          refine List.map_congr_left fun a _ => ?_
          by_cases h : a = lo <;> simp [evalB, h] <;> omega
      · beta_reduce
        rw [laneBits_andv]
        unfold gev lev laneBits
        rw [splat, splat, zipWith_replicate_right _ _ _ _ (by omega),
          zipWith_replicate_right _ _ _ _ (by omega), List.map_map, List.map_map,
          zipWith_map_same]
        refine List.map_congr_left fun a _ => ?_
        by_cases h1 : lo ≤ a <;> by_cases h2 : a ≤ hi <;> simp [evalB, h1, h2]
  | cexcl lo hi =>
      unfold evalV
      split
      · next h =>
          subst h
          unfold laneBits splat
          beta_reduce
          rw [List.map_replicate]
          rw [show w.map (evalB (.cexcl lo lo)) = w.map (fun _ => false) from
            List.map_congr_left fun a _ => by simp [evalB]; omega]
          simp [List.map_const', hlen]
      · beta_reduce
        rw [laneBits_andv]
        unfold gtv ltv laneBits
        rw [splat, splat, zipWith_replicate_right _ _ _ _ (by omega),
          zipWith_replicate_right _ _ _ _ (by omega), List.map_map, List.map_map,
          zipWith_map_same]
        refine List.map_congr_left fun a _ => ?_
        by_cases h1 : lo < a <;> by_cases h2 : a < hi <;> simp [evalB, h1, h2]
  | cnot c ih =>
      unfold evalV
      rw [laneBits_notv, ih, List.map_map]
      refine List.map_congr_left fun a _ => ?_
      simp [evalB]
  | cand a b iha ihb =>
      unfold evalV
      rw [laneBits_andv, iha, ihb, zipWith_map_same]
      rfl
  | cor a b iha ihb =>
      unfold evalV
      rw [laneBits_orv, iha, ihb, zipWith_map_same]
      rfl
  | cxor a b iha ihb =>
      unfold evalV
      rw [laneBits_xorv, iha, ihb, zipWith_map_same]
      rfl

/-! `firstIdx` (the specification of a first-match scan) and its relation to
the mask arithmetic the engine actually performs. -/

lemma firstIdx_lt_length {p : α → Bool} :
    ∀ {l : List α} {i : Nat}, firstIdx p l = some i → i < l.length := by
  intro l
  induction l with
  | nil => intro i h; simp [firstIdx] at h
  | cons x xs ih =>
      intro i h
      by_cases hp : p x
      · simp [firstIdx, hp] at h
        subst h
        simp
      · simp [firstIdx, hp] at h
        obtain ⟨a, ha, rfl⟩ := h
        have := ih ha
        simp
        omega

lemma firstIdx_eq_none_iff {p : α → Bool} {l : List α} :
    firstIdx p l = none ↔ ∀ x ∈ l, p x = false := by
  induction l with
  | nil => simp [firstIdx]
  | cons x xs ih => by_cases hp : p x <;> simp [firstIdx, hp, ih]

lemma firstIdx_append (p : α → Bool) (l₁ l₂ : List α) :
    firstIdx p (l₁ ++ l₂) =
      (match firstIdx p l₁ with
        | some i => some i
        | none => (firstIdx p l₂).map (· + l₁.length)) := by
  induction l₁ with
  | nil => cases h : firstIdx p l₂ <;> simp [firstIdx, h]
  | cons x xs ih =>
      have hL : firstIdx p ((x :: xs) ++ l₂) =
          if p x then some 0 else (firstIdx p (xs ++ l₂)).map (· + 1) := rfl
      have hR : firstIdx p (x :: xs) =
          if p x then some 0 else (firstIdx p xs).map (· + 1) := rfl
      by_cases hp : p x
      · rw [hL, hR, if_pos hp, if_pos hp]
      · rw [hL, hR, if_neg hp, if_neg hp, ih]
        cases h : firstIdx p xs with
        | some i => simp
        | none =>
            cases h2 : firstIdx p l₂ with
            | none => simp
            | some j => simp; omega

lemma firstIdx_map (q : β → Bool) (f : α → β) (l : List α) :
    firstIdx q (l.map f) = firstIdx (fun x => q (f x)) l := by
  induction l with
  | nil => rfl
  | cons x xs ih => by_cases hq : q (f x) <;> simp [firstIdx, hq, ih]

lemma firstIdx_some_spec (p : α → Bool) (d : α) :
    ∀ {l : List α} {i : Nat}, firstIdx p l = some i →
      i < l.length ∧ p (l.getD i d) = true ∧ ∀ j, j < i → p (l.getD j d) = false := by
  intro l
  induction l with
  | nil => intro i h; simp [firstIdx] at h
  | cons x xs ih =>
      intro i h
      by_cases hp : p x
      · simp [firstIdx, hp] at h
        subst h
        refine ⟨by simp, by simp [hp], fun j hj => by omega⟩
      · simp [firstIdx, hp] at h
        obtain ⟨a, ha, rfl⟩ := h
        obtain ⟨h1, h2, h3⟩ := ih ha
        refine ⟨by simp; omega, by simpa using h2, fun j hj => ?_⟩
        cases j with
        | zero => simpa [hp] using hp
        | succ n => simpa using h3 n (by omega)

lemma moveMask_eq_boolsToNat (v : Vec) : moveMask v = boolsToNat (laneBits v) := by
  induction v with
  | nil => rfl
  | cons x xs ih =>
      show x % 2 + 2 * moveMask xs = boolsToNat (decide (x % 2 = 1) :: laneBits xs)
      simp only [boolsToNat, ih]
      by_cases h : x % 2 = 1 <;> simp [h] <;> omega

lemma tzAux_boolsToNat (bs : List Bool) :
    tzAux (boolsToNat bs) bs.length = (firstIdx id bs).getD bs.length := by
  induction bs with
  | nil => rfl
  | cons b t ih =>
      cases b
      · rw [show boolsToNat (false :: t) = 2 * boolsToNat t from by simp [boolsToNat],
          show firstIdx id (false :: t) = (firstIdx id t).map (· + 1) from by simp [firstIdx],
          List.length_cons]
        simp only [tzAux]
        rw [if_neg (by omega), show 2 * boolsToNat t / 2 = boolsToNat t from by omega, ih]
        cases h : firstIdx id t <;> simp [h] <;> omega
      · rw [show boolsToNat (true :: t) = 1 + 2 * boolsToNat t from by simp [boolsToNat],
          show firstIdx id (true :: t) = some 0 from by simp [firstIdx],
          List.length_cons]
        simp only [tzAux]
        rw [if_pos (by omega)]
        simp

lemma toAux_boolsToNat (bs : List Bool) :
    toAux (boolsToNat bs) bs.length = (firstIdx (fun b => !b) bs).getD bs.length := by
  induction bs with
  | nil => rfl
  | cons b t ih =>
      cases b
      · rw [show boolsToNat (false :: t) = 2 * boolsToNat t from by simp [boolsToNat],
          show firstIdx (fun b => !b) (false :: t) = some 0 from by simp [firstIdx],
          List.length_cons]
        simp only [toAux]
        rw [if_neg (by omega)]
        simp
      · rw [show boolsToNat (true :: t) = 1 + 2 * boolsToNat t from by simp [boolsToNat],
          show firstIdx (fun b => !b) (true :: t) = (firstIdx (fun b => !b) t).map (· + 1) from by
            simp [firstIdx],
          List.length_cons]
        simp only [toAux]
        rw [if_pos (by omega), show (1 + 2 * boolsToNat t) / 2 = boolsToNat t from by omega, ih]
        cases h : firstIdx (fun b => !b) t <;> simp [h] <;> omega

lemma boolsToNat_lt (bs : List Bool) : boolsToNat bs < 2 ^ bs.length := by
  induction bs with
  | nil => simp [boolsToNat]
  | cons b t ih =>
      simp only [boolsToNat, List.length_cons, pow_succ]
      cases b <;> simp <;> omega

lemma boolsToNat_eq_ones_iff (bs : List Bool) :
    boolsToNat bs = 2 ^ bs.length - 1 ↔ ∀ b ∈ bs, b = true := by
  induction bs with
  | nil => simp [boolsToNat]
  | cons b t ih =>
      have hlt := boolsToNat_lt t
      have h1 : 0 < 2 ^ t.length := Nat.two_pow_pos _
      cases b
      · rw [show boolsToNat (false :: t) = 2 * boolsToNat t from by simp [boolsToNat]]
        simp only [List.length_cons, pow_succ, List.forall_mem_cons]
        simp only [Bool.false_eq_true, false_and, iff_false]
        omega
      · rw [show boolsToNat (true :: t) = 1 + 2 * boolsToNat t from by simp [boolsToNat]]
        simp only [List.length_cons, pow_succ, List.forall_mem_cons]
        rw [← ih]
        simp only [eq_self_iff_true, true_and]
        omega

/-! Per-window behaviour of `find` and `ensure!` on a compiled predicate. -/

lemma moveMask_evalV (c : Cond) (w : Vec) (hlen : w.length = 16) (hw : ∀ b ∈ w, b < 256) :
    moveMask (evalV c w) = boolsToNat (w.map (evalB c)) := by
  rw [moveMask_eq_boolsToNat, laneBits_evalV c w hlen hw]

lemma find_evalV (c : Cond) (w : Vec) (hlen : w.length = 16) (hw : ∀ b ∈ w, b < 256) :
    find w (evalV c) = firstIdx (evalB c) w := by
  unfold find
  have hlen' : (w.map (evalB c)).length = 16 := by simp [hlen]
  have htz : trailingZeros16 (moveMask (evalV c w)) = (firstIdx (evalB c) w).getD 16 := by
    rw [moveMask_evalV c w hlen hw, trailingZeros16, ← hlen', tzAux_boolsToNat, hlen',
      firstIdx_map]
    simp
  rw [htz]
  cases hfi : firstIdx (evalB c) w with
  | none => simp
  | some i =>
      have hi : i < 16 := by
        have := firstIdx_lt_length hfi
        omega
      simp [hi, Nat.not_le.mpr hi]

lemma ensure_evalV (c : Cond) (w : Vec) (hlen : w.length = 16) (hw : ∀ b ∈ w, b < 256) :
    ensure w (evalV c) = w.all (evalB c) := by
  unfold ensure
  have hlen' : (w.map (evalB c)).length = 16 := by simp [hlen]
  have hiff : (boolsToNat (w.map (evalB c)) = 65535) ↔ (∀ a ∈ w, evalB c a = true) := by
    have h := boolsToNat_eq_ones_iff (w.map (evalB c))
    rw [hlen'] at h
    norm_num at h
    exact h
  rw [moveMask_evalV c w hlen hw]
  rcases hall : w.all (evalB c) with _ | _
  · have hne : ¬(∀ a ∈ w, evalB c a = true) := by
      intro hforall
      rw [← List.all_eq_true, hall] at hforall
      exact Bool.false_ne_true hforall
    exact decide_eq_false (fun hP => hne (hiff.mp hP))
  · exact decide_eq_true (hiff.mpr (List.all_eq_true.mp hall))

/-! Scanner traversal lemmas. -/

lemma window_length (data : List Nat) (idx : Nat) (h : idx + 16 ≤ data.length) :
    (load_unchecked (data.drop idx)).length = 16 := by
  simp [load_unchecked]
  omega

lemma window_mem {data : List Nat} {idx : Nat} {b : Nat}
    (hb : b ∈ load_unchecked (data.drop idx)) : b ∈ data :=
  List.mem_of_mem_drop (List.mem_of_mem_take hb)

lemma tail_window_eq (data : List Nat) (h16 : 16 ≤ data.length) :
    load_unchecked (data.drop (data.length - 16)) = data.drop (data.length - 16) := by
  apply List.take_of_length_le
  simp [List.length_drop]
  omega

lemma firstIdx_of_take_none (p : Nat → Bool) (data : List Nat) (idx : Nat)
    (hidx : idx ≤ data.length) (hnone : firstIdx p (data.take idx) = none) :
    firstIdx p data = (firstIdx p (data.drop idx)).map (· + idx) := by
  conv_lhs => rw [← List.take_append_drop idx data]
  rw [firstIdx_append, hnone]
  have hlt : (data.take idx).length = idx := by
    simp [List.length_take]
    omega
  simp only [hlt]

lemma drop_split (data : List Nat) (idx : Nat) :
    data.drop idx = load_unchecked (data.drop idx) ++ data.drop (idx + 16) := by
  show data.drop idx = (data.drop idx).take 16 ++ data.drop (idx + 16)
  rw [← List.drop_drop]
  exact (List.take_append_drop 16 (data.drop idx)).symm

lemma searchLoop_eq (c : Cond) (data : List Nat) (hw : ∀ b ∈ data, b < 256)
    (h16 : 16 ≤ data.length) :
    ∀ idx, idx ≤ data.length → firstIdx (evalB c) (data.take idx) = none →
      searchLoop data (evalV c) idx = firstIdx (evalB c) data := by
  suffices H : ∀ n idx, data.length - idx ≤ n → idx ≤ data.length →
      firstIdx (evalB c) (data.take idx) = none →
      searchLoop data (evalV c) idx = firstIdx (evalB c) data by
    exact fun idx h1 h2 => H data.length idx (by omega) h1 h2
  intro n
  induction n with
  | zero =>
      intro idx h0 h1 h2
      rw [searchLoop]
      have hidx : idx = data.length := by omega
      rw [dif_neg (by omega), if_pos (by omega)]
      rw [hidx, List.take_length] at h2
      exact h2.symm
  | succ n ih =>
      intro idx h0 h1 h2
      rw [searchLoop]
      by_cases hguard : idx + 16 ≤ data.length
      · rw [dif_pos hguard]
        have hw16 : (load_unchecked (data.drop idx)).length = 16 := window_length data idx hguard
        have hwmem : ∀ b ∈ load_unchecked (data.drop idx), b < 256 :=
          fun b hb => hw b (window_mem hb)
        rw [find_evalV c _ hw16 hwmem]
        cases hfi : firstIdx (evalB c) (load_unchecked (data.drop idx)) with
        | some p =>
            rw [firstIdx_of_take_none (evalB c) data idx (by omega) h2,
              drop_split data idx, firstIdx_append, hfi]
            simp
        | none =>
            have hfi' : firstIdx (evalB c) (List.take 16 (List.drop idx data)) = none := hfi
            have hnone' : firstIdx (evalB c) (data.take (idx + 16)) = none := by
              rw [List.take_add, firstIdx_append, h2, hfi']
              simp
            exact ih (idx + 16) (by omega) (by omega) hnone'
      · rw [dif_neg hguard]
        by_cases hz : data.length - idx = 0
        · rw [if_pos hz]
          have hidx : idx = data.length := by omega
          rw [hidx, List.take_length] at h2
          exact h2.symm
        · rw [if_neg hz]
          have hguard' : (data.length - 16) + 16 ≤ data.length := by omega
          have hw16 : (load_unchecked (data.drop (data.length - 16))).length = 16 :=
            window_length data _ hguard'
          have hwmem : ∀ b ∈ load_unchecked (data.drop (data.length - 16)), b < 256 :=
            fun b hb => hw b (window_mem hb)
          rw [find_evalV c _ hw16 hwmem]
          have hpre : firstIdx (evalB c) (data.take (data.length - 16)) = none := by
            rw [firstIdx_eq_none_iff] at h2 ⊢
            intro x hx
            apply h2
            have heq : data.take (data.length - 16) = (data.take idx).take (data.length - 16) := by
              rw [List.take_take]
              congr 1
              omega
            rw [heq] at hx
            exact List.mem_of_mem_take hx
          rw [firstIdx_of_take_none (evalB c) data (data.length - 16) (by omega) hpre,
            tail_window_eq data h16]

lemma ensureLoop_eq (c : Cond) (data : List Nat) (hw : ∀ b ∈ data, b < 256)
    (h16 : 16 ≤ data.length) :
    ∀ idx, idx ≤ data.length → (data.take idx).all (evalB c) = true →
      ensureLoop data (evalV c) idx = data.all (evalB c) := by
  suffices H : ∀ n idx, data.length - idx ≤ n → idx ≤ data.length →
      (data.take idx).all (evalB c) = true →
      ensureLoop data (evalV c) idx = data.all (evalB c) by
    exact fun idx h1 h2 => H data.length idx (by omega) h1 h2
  intro n
  induction n with
  | zero =>
      intro idx h0 h1 h2
      rw [ensureLoop, dif_neg (by omega), if_pos (by omega)]
      have hidx : idx = data.length := by omega
      rw [hidx, List.take_length] at h2
      exact h2.symm
  | succ n ih =>
      intro idx h0 h1 h2
      rw [ensureLoop]
      by_cases hguard : idx + 16 ≤ data.length
      · rw [dif_pos hguard]
        have hw16 := window_length data idx hguard
        have hwmem : ∀ b ∈ load_unchecked (data.drop idx), b < 256 :=
          fun b hb => hw b (window_mem hb)
        cases hens : ensure (load_unchecked (data.drop idx)) (evalV c) with
        | false =>
            rw [if_neg (by simp)]
            rw [ensure_evalV c _ hw16 hwmem] at hens
            cases hD : data.all (evalB c) with
            | false => rfl
            | true =>
                exfalso
                have hT : (load_unchecked (data.drop idx)).all (evalB c) = true :=
                  List.all_eq_true.mpr (fun x hx => List.all_eq_true.mp hD x (window_mem hx))
                rw [hens] at hT
                exact Bool.false_ne_true hT
        | true =>
            rw [if_pos rfl]
            rw [ensure_evalV c _ hw16 hwmem] at hens
            apply ih (idx + 16) (by omega) (by omega)
            rw [List.take_add, List.all_append, h2, Bool.true_and]
            exact hens
      · rw [dif_neg hguard]
        by_cases hz : data.length - idx = 0
        · rw [if_pos hz]
          have hidx : idx = data.length := by omega
          rw [hidx, List.take_length] at h2
          exact h2.symm
        · rw [if_neg hz]
          have hguard' : (data.length - 16) + 16 ≤ data.length := by omega
          have hw16 := window_length data _ hguard'
          have hwmem : ∀ b ∈ load_unchecked (data.drop (data.length - 16)), b < 256 :=
            fun b hb => hw b (window_mem hb)
          rw [ensure_evalV c _ hw16 hwmem, tail_window_eq data h16]
          conv_rhs => rw [← List.take_append_drop (data.length - 16) data]
          rw [List.all_append]
          have hpre : (data.take (data.length - 16)).all (evalB c) = true := by
            rw [List.all_eq_true]
            intro x hx
            have heq : data.take (data.length - 16) = (data.take idx).take (data.length - 16) := by
              rw [List.take_take]
              congr 1
              omega
            rw [heq] at hx
            exact List.all_eq_true.mp h2 x (List.mem_of_mem_take hx)
          rw [hpre, Bool.true_and]

/-! The traversal reads exactly the windows listed by `windowStarts`. -/

lemma ensureLoop_eq_windows (data : List Nat) (cond : Vec → Vec) :
    ∀ idx, ensureLoop data cond idx =
      (windowStarts data.length idx).all
        (fun s => ensure (load_unchecked (data.drop s)) cond) := by
  suffices H : ∀ n idx, data.length - idx ≤ n →
      ensureLoop data cond idx =
        (windowStarts data.length idx).all
          (fun s => ensure (load_unchecked (data.drop s)) cond) by
    exact fun idx => H data.length idx (by omega)
  intro n
  induction n with
  | zero =>
      intro idx h0
      have hg : ¬(idx + 16 ≤ data.length) := by omega
      have hz : data.length - idx = 0 := by omega
      rw [ensureLoop, windowStarts, dif_neg hg, if_neg hg, if_pos hz, if_pos hz]
      rfl
  | succ n ih =>
      intro idx h0
      rw [ensureLoop, windowStarts]
      by_cases hguard : idx + 16 ≤ data.length
      · rw [dif_pos hguard, if_pos hguard]
        cases hens : ensure (load_unchecked (data.drop idx)) cond with
        | false =>
            rw [if_neg (by simp)]
            simp [List.all_cons, hens]
        | true =>
            rw [if_pos rfl]
            simp only [List.all_cons, hens, Bool.true_and]
            exact ih (idx + 16) (by omega)
      · rw [dif_neg hguard, if_neg hguard]
        by_cases hz : data.length - idx = 0
        · rw [if_pos hz, if_pos hz]
          rfl
        · rw [if_neg hz, if_neg hz]
          simp [List.all_cons]
  
lemma ensureCtLoop_eq_windows (data : List Nat) (cond : Vec → Vec) :
    ∀ idx res, ensureCtLoop data cond idx res =
      (res && (windowStarts data.length idx).all
        (fun s => ensure (load_unchecked (data.drop s)) cond)) := by
  suffices H : ∀ n idx res, data.length - idx ≤ n →
      ensureCtLoop data cond idx res =
        (res && (windowStarts data.length idx).all
          (fun s => ensure (load_unchecked (data.drop s)) cond)) by
    exact fun idx res => H data.length idx res (by omega)
  intro n
  induction n with
  | zero =>
      intro idx res h0
      have hg : ¬(idx + 16 ≤ data.length) := by omega
      have hz : data.length - idx = 0 := by omega
      rw [ensureCtLoop, windowStarts, dif_neg hg, if_neg hg, if_pos hz, if_pos hz]
      simp
  | succ n ih =>
      intro idx res h0
      rw [ensureCtLoop, windowStarts]
      by_cases hguard : idx + 16 ≤ data.length
      · rw [dif_pos hguard, if_pos hguard]
        rw [ih (idx + 16) _ (by omega)]
        simp [List.all_cons, Bool.and_assoc]
      · rw [dif_neg hguard, if_neg hguard]
        by_cases hz : data.length - idx = 0
        · rw [if_pos hz, if_pos hz]
          simp
        · rw [if_neg hz, if_neg hz]
          simp [List.all_cons]

lemma windowStarts_bounds (len : Nat) (h16 : 16 ≤ len) :
    ∀ idx, ∀ s ∈ windowStarts len idx, s + 16 ≤ len := by
  suffices H : ∀ n idx, len - idx ≤ n → ∀ s ∈ windowStarts len idx, s + 16 ≤ len by
    exact fun idx => H len idx (by omega)
  intro n
  induction n with
  | zero =>
      intro idx h0 s hs
      rw [windowStarts, if_neg (by omega), if_pos (by omega)] at hs
      simp at hs
  | succ n ih =>
      intro idx h0 s hs
      rw [windowStarts] at hs
      by_cases hguard : idx + 16 ≤ len
      · rw [if_pos hguard] at hs
        rcases List.mem_cons.mp hs with rfl | hs'
        · exact hguard
        · exact ih (idx + 16) (by omega) s hs'
      · rw [if_neg hguard] at hs
        by_cases hz : len - idx = 0
        · rw [if_pos hz] at hs
          simp at hs
        · rw [if_neg hz] at hs
          rcases List.mem_singleton.mp hs with rfl
          omega

lemma windowStarts_closed (len : Nat) :
    ∀ idx, idx ≤ len →
      windowStarts len idx =
        List.range' idx ((len - idx) / 16) 16 ++
          (if (len - idx) % 16 = 0 then [] else [len - 16]) := by
  suffices H : ∀ n idx, len - idx ≤ n → idx ≤ len →
      windowStarts len idx =
        List.range' idx ((len - idx) / 16) 16 ++
          (if (len - idx) % 16 = 0 then [] else [len - 16]) by
    exact fun idx h1 => H len idx (by omega) h1
  intro n
  induction n with
  | zero =>
      intro idx h0 h1
      have hz : len - idx = 0 := by omega
      rw [windowStarts, if_neg (by omega), if_pos hz, hz]
      simp
  | succ n ih =>
      intro idx h0 h1
      by_cases hguard : idx + 16 ≤ len
      · rw [windowStarts, if_pos hguard, ih (idx + 16) (by omega) (by omega)]
        have hq : (len - idx) / 16 = (len - (idx + 16)) / 16 + 1 := by omega
        have hm : (len - (idx + 16)) % 16 = (len - idx) % 16 := by omega
        rw [hq, hm, List.range'_succ, List.cons_append]
      · rw [windowStarts, if_neg hguard]
        have hq : (len - idx) / 16 = 0 := by omega
        by_cases hz : len - idx = 0
        · rw [if_pos hz, hq, hz]
          simp
        · rw [if_neg hz, hq]
          have hm : (len - idx) % 16 ≠ 0 := by omega
          simp [hm]

/-! Facade lemmas: both the strided path and the `load_partial` short path
agree with the per-byte reference semantics. -/

lemma trailingZeros_evalV (c : Cond) (w : Vec) (hlen : w.length = 16)
    (hw : ∀ b ∈ w, b < 256) :
    trailingZeros16 (moveMask (evalV c w)) = (firstIdx (evalB c) w).getD 16 := by
  have hlen' : (w.map (evalB c)).length = 16 := by simp [hlen]
  rw [moveMask_evalV c w hlen hw, trailingZeros16, ← hlen', tzAux_boolsToNat, hlen',
    firstIdx_map]
  simp

lemma trailingOnes_evalV (c : Cond) (w : Vec) (hlen : w.length = 16)
    (hw : ∀ b ∈ w, b < 256) :
    trailingOnes16 (moveMask (evalV c w)) = (firstIdx (fun v => !evalB c v) w).getD 16 := by
  have hlen' : (w.map (evalB c)).length = 16 := by simp [hlen]
  rw [moveMask_evalV c w hlen hw, trailingOnes16, ← hlen', toAux_boolsToNat, hlen',
    firstIdx_map]

lemma load_partial_eq (data : List Nat) :
    load_partial_lanes data data.length = data ++ List.replicate (16 - data.length) 0 := by
  simp [load_partial_lanes]

lemma load_partial_length (data : List Nat) (h : data.length ≤ 16) :
    (load_partial_lanes data data.length).length = 16 := by
  simp [load_partial_lanes]
  omega

lemma load_partial_mem (data : List Nat) (hw : ∀ b ∈ data, b < 256) :
    ∀ b ∈ load_partial_lanes data data.length, b < 256 := by
  intro b hb
  rw [load_partial_eq] at hb
  rcases List.mem_append.mp hb with h | h
  · exact hw b h
  · simp [List.eq_of_mem_replicate h]

lemma search_eq_firstIdx (c : Cond) (data : List Nat) (hw : ∀ b ∈ data, b < 256) :
    search data (evalV c) = firstIdx (evalB c) data := by
  by_cases h16 : 16 ≤ data.length
  · rw [search, if_pos h16]
    exact searchLoop_eq c data hw h16 0 (by omega) (by simp [firstIdx])
  · have hlen : data.length < 16 := by omega
    have hp16 : (load_partial_lanes data data.length).length = 16 :=
      load_partial_length data (by omega)
    have hpmem := load_partial_mem data hw
    rw [search, if_neg h16]
    show (if trailingZeros16 (moveMask (evalV c (load_partial_lanes data data.length))) <
        data.length then
        some (trailingZeros16 (moveMask (evalV c (load_partial_lanes data data.length))))
      else none) = firstIdx (evalB c) data
    rw [trailingZeros_evalV c _ hp16 hpmem, load_partial_eq, firstIdx_append]
    cases hfd : firstIdx (evalB c) data with
    | some i =>
        have hi : i < data.length := firstIdx_lt_length hfd
        simp [hi]
    | none =>
        cases hpd : firstIdx (evalB c) (List.replicate (16 - data.length) 0) with
        | none =>
            simp
            omega
        | some j => simp

lemma for_all_ensure_eq_all (c : Cond) (data : List Nat) (hw : ∀ b ∈ data, b < 256) :
    for_all_ensure data (evalV c) = data.all (evalB c) := by
  by_cases h16 : 16 ≤ data.length
  · rw [for_all_ensure, if_pos h16]
    exact ensureLoop_eq c data hw h16 0 (by omega) (by simp)
  · have hlen : data.length < 16 := by omega
    have hp16 : (load_partial_lanes data data.length).length = 16 :=
      load_partial_length data (by omega)
    have hpmem := load_partial_mem data hw
    rw [for_all_ensure, if_neg h16, trailingOnes_evalV c _ hp16 hpmem, load_partial_eq,
      firstIdx_append]
    cases hfd : firstIdx (fun v => !evalB c v) data with
    | some i =>
        have hi : i < data.length := firstIdx_lt_length hfd
        have hspec := firstIdx_some_spec (fun v => !evalB c v) 0 hfd
        have hall : data.all (evalB c) = false := by
          cases hA : data.all (evalB c) with
          | false => rfl
          | true =>
              exfalso
              have hmem : data.getD i 0 ∈ data := by
                rw [List.getD_eq_getElem data 0 hi]
                exact List.getElem_mem hi
              have hT := List.all_eq_true.mp hA _ hmem
              have hx := hspec.2.1
              rw [show ((fun v => !evalB c v) (data.getD i 0)) = !evalB c (data.getD i 0)
                from rfl, hT] at hx
              simp at hx
        rw [hall]
        show decide (data.length ≤ i) = false
        exact decide_eq_false (by omega)
    | none =>
        have hall : data.all (evalB c) = true := by
          rw [List.all_eq_true]
          intro x hx
          have := firstIdx_eq_none_iff.mp hfd x hx
          simpa using this
        rw [hall]
        cases hpd : firstIdx (fun v => !evalB c v) (List.replicate (16 - data.length) 0) with
        | none =>
            show decide (data.length ≤ (16 : Nat)) = true
            exact decide_eq_true (by omega)
        | some j =>
            show decide (data.length ≤ j + data.length) = true
            exact decide_eq_true (by omega)

lemma for_all_ensure_ct_eq (data : List Nat) (cond : Vec → Vec) :
    for_all_ensure_ct data cond = for_all_ensure data cond := by
  by_cases h16 : 16 ≤ data.length
  · rw [for_all_ensure_ct, for_all_ensure, if_pos h16, if_pos h16,
      ensureCtLoop_eq_windows data cond 0 true, ensureLoop_eq_windows data cond 0]
    simp
  · rw [for_all_ensure_ct, for_all_ensure, if_neg h16, if_neg h16]
    simp

/-! Lane semantics of the `one_of!` combinator. -/

lemma laneBits_oneOf2 (pa pb : Cond) (w : Vec) (hlen : w.length = 16)
    (hw : ∀ x ∈ w, x < 256) :
    laneBits (oneOf2 (evalV pa) (evalV pb) w) =
      w.map (fun v => Bool.xor (evalB pa v) (evalB pb v)) := by
  unfold oneOf2
  rw [laneBits_xorv, laneBits_evalV pa w hlen hw, laneBits_evalV pb w hlen hw,
    zipWith_map_same]

lemma laneBits_oneOf3 (pa pb pc : Cond) (w : Vec) (hlen : w.length = 16)
    (hw : ∀ x ∈ w, x < 256) :
    laneBits (oneOf3 (evalV pa) (evalV pb) (evalV pc) w) =
      w.map (fun v =>
        Bool.xor (Bool.xor (evalB pa v) (evalB pb v)) (evalB pc v) &&
          !(evalB pa v && evalB pb v && evalB pc v)) := by
  unfold oneOf3
  rw [laneBits_andv, laneBits_xorv, laneBits_xorv, laneBits_notv, laneBits_andv,
    laneBits_andv, laneBits_evalV pa w hlen hw, laneBits_evalV pb w hlen hw,
    laneBits_evalV pc w hlen hw]
  simp only [zipWith_map_same, List.map_map]
  refine List.map_congr_left fun v _ => ?_
  simp [Function.comp]

lemma laneBits_oneOf4 (pa pb pc pd : Cond) (w : Vec) (hlen : w.length = 16)
    (hw : ∀ x ∈ w, x < 256) :
    laneBits (oneOf4 (evalV pa) (evalV pb) (evalV pc) (evalV pd) w) =
      w.map (fun v =>
        Bool.xor (Bool.xor (evalB pa v) (evalB pb v))
            (Bool.xor (evalB pc v) (evalB pd v)) &&
          !((evalB pa v && evalB pb v) && (evalB pc v && evalB pd v))) := by
  unfold oneOf4
  rw [laneBits_andv, laneBits_xorv, laneBits_xorv, laneBits_xorv, laneBits_notv,
    laneBits_andv, laneBits_andv, laneBits_andv, laneBits_evalV pa w hlen hw,
    laneBits_evalV pb w hlen hw, laneBits_evalV pc w hlen hw, laneBits_evalV pd w hlen hw]
  simp only [zipWith_map_same, List.map_map]
  refine List.map_congr_left fun v _ => ?_
  simp [Function.comp]

/-! The frozen claims. -/

/-- Claim C1: for every byte buffer and every predicate built from the exposed
constructors, `search` returns `some i` exactly for the minimal index `i`
whose byte satisfies the predicate, and `none` exactly when no byte does. -/
theorem claim_C1 (data : List Nat) (c : Cond) (hw : ∀ b ∈ data, b < 256) :
    (∀ i, search data (evalV c) = some i →
      i < data.length ∧ evalB c (data.getD i 0) = true ∧
        ∀ j, j < i → evalB c (data.getD j 0) = false) ∧
    (search data (evalV c) = none ↔ ∀ b ∈ data, evalB c b = false) := by
  constructor
  · intro i h
    rw [search_eq_firstIdx c data hw] at h
    exact firstIdx_some_spec (evalB c) 0 h
  · rw [search_eq_firstIdx c data hw]
    exact firstIdx_eq_none_iff

theorem claim_C1_witness :
    (∀ b ∈ ([3, 1, 4, 1, 5, 9, 2, 6, 5, 3, 5, 8, 9, 7, 9, 3, 2, 3] : List Nat), b < 256) ∧
    ((search [3, 1, 4, 1, 5, 9, 2, 6, 5, 3, 5, 8, 9, 7, 9, 3, 2, 3] (evalV (Cond.ceq 7)) =
        none) ↔
      ∀ b ∈ ([3, 1, 4, 1, 5, 9, 2, 6, 5, 3, 5, 8, 9, 7, 9, 3, 2, 3] : List Nat),
        evalB (Cond.ceq 7) b = false) :=
  ⟨by decide, (claim_C1 [3, 1, 4, 1, 5, 9, 2, 6, 5, 3, 5, 8, 9, 7, 9, 3, 2, 3]
    (Cond.ceq 7) (by decide)).2⟩

/-- Claim C2: `for_all_ensure` is `true` exactly when the predicate holds at
every index of the buffer. -/
theorem claim_C2 (data : List Nat) (c : Cond) (hw : ∀ b ∈ data, b < 256) :
    for_all_ensure data (evalV c) = true ↔
      ∀ i, (h : i < data.length) → evalB c data[i] = true := by
  rw [for_all_ensure_eq_all c data hw, List.all_eq_true]
  constructor
  · intro hall i hi
    exact hall data[i] (List.getElem_mem hi)
  · intro hidx x hx
    obtain ⟨i, hi, rfl⟩ := List.mem_iff_getElem.mp hx
    exact hidx i hi

theorem claim_C2_witness :
    (∀ b ∈ ([5, 5, 5] : List Nat), b < 256) ∧
    for_all_ensure [5, 5, 5] (evalV (Cond.ceq 5)) = true :=
  ⟨by decide, (claim_C2 [5, 5, 5] (Cond.ceq 5) (by decide)).mpr (by decide)⟩

/-- Claim C3: `range(MIN, MAX)` holds at a byte exactly when the byte lies in
the inclusive range, on both the signed-comparison compile and the unsigned
compile, for every bound pairing. -/
theorem claim_C3 (mn mx v : Nat) (h1 : mn ≤ mx) (h2 : mx ≤ 255) (h3 : v ≤ 255) :
    ((laneTrueI8 (rangeI8 mn mx v) = true) ↔ (mn ≤ v ∧ v ≤ mx)) ∧
    ((laneTrueU8 (rangeU8 mn mx v) = true) ↔ (mn ≤ v ∧ v ≤ mx)) :=
  ⟨rangeI8_spec mn mx v h1 h2 h3, rangeU8_spec mn mx v⟩

theorem claim_C3_witness :
    ((100 : Nat) ≤ 200 ∧ (200 : Nat) ≤ 255 ∧ (150 : Nat) ≤ 255) ∧
    (((laneTrueI8 (rangeI8 100 200 150) = true) ↔ (100 ≤ 150 ∧ 150 ≤ 200)) ∧
      ((laneTrueU8 (rangeU8 100 200 150) = true) ↔ (100 ≤ 150 ∧ 150 ≤ 200))) :=
  ⟨by decide, claim_C3 100 200 150 (by decide) (by decide) (by decide)⟩

/-- Claim C5: the four compiled comparator families agree with standard
unsigned ordering on every constant and every byte, on both backends, and the
degenerate bounds compile to broadcast constants. -/
theorem claim_C5 (cst v : Nat) (hc : cst ≤ 255) (hv : v ≤ 255) :
    ((laneTrueI8 (less_thanI8 cst v) = true) ↔ v < cst) ∧
    ((laneTrueI8 (less_than_or_eqI8 cst v) = true) ↔ v ≤ cst) ∧
    ((laneTrueI8 (greater_thanI8 cst v) = true) ↔ cst < v) ∧
    ((laneTrueI8 (greater_than_or_eqI8 cst v) = true) ↔ cst ≤ v) ∧
    ((laneTrueU8 (less_thanU8 cst v) = true) ↔ v < cst) ∧
    ((laneTrueU8 (less_than_or_eqU8 cst v) = true) ↔ v ≤ cst) ∧
    ((laneTrueU8 (greater_thanU8 cst v) = true) ↔ cst < v) ∧
    ((laneTrueU8 (greater_than_or_eqU8 cst v) = true) ↔ cst ≤ v) ∧
    less_thanI8 0 v = 0 ∧ greater_thanI8 255 v = 0 ∧
    less_than_or_eqI8 255 v = 255 ∧ greater_than_or_eqI8 0 v = 255 ∧
    less_thanU8 0 v = 0 ∧ greater_thanU8 255 v = 0 ∧
    less_than_or_eqU8 255 v = 255 ∧ greater_than_or_eqU8 0 v = 255 :=
  ⟨less_thanI8_spec cst v hc hv, less_than_or_eqI8_spec cst v hc hv,
    greater_thanI8_spec cst v hc hv, greater_than_or_eqI8_spec cst v hc hv,
    less_thanU8_spec cst v, less_than_or_eqU8_spec cst v hv,
    greater_thanU8_spec cst v hv, greater_than_or_eqU8_spec cst v,
    rfl, rfl, rfl, rfl, rfl, rfl, rfl, rfl⟩

theorem claim_C5_witness :
    ((129 : Nat) ≤ 255 ∧ (127 : Nat) ≤ 255) ∧
    (((laneTrueI8 (less_thanI8 129 127) = true) ↔ 127 < 129) ∧
      ((laneTrueI8 (less_than_or_eqI8 129 127) = true) ↔ 127 ≤ 129) ∧
      ((laneTrueI8 (greater_thanI8 129 127) = true) ↔ 129 < 127) ∧
      ((laneTrueI8 (greater_than_or_eqI8 129 127) = true) ↔ 129 ≤ 127) ∧
      ((laneTrueU8 (less_thanU8 129 127) = true) ↔ 127 < 129) ∧
      ((laneTrueU8 (less_than_or_eqU8 129 127) = true) ↔ 127 ≤ 129) ∧
      ((laneTrueU8 (greater_thanU8 129 127) = true) ↔ 129 < 127) ∧
      ((laneTrueU8 (greater_than_or_eqU8 129 127) = true) ↔ 129 ≤ 127) ∧
      less_thanI8 0 127 = 0 ∧ greater_thanI8 255 127 = 0 ∧
      less_than_or_eqI8 255 127 = 255 ∧ greater_than_or_eqI8 0 127 = 255 ∧
      less_thanU8 0 127 = 0 ∧ greater_thanU8 255 127 = 0 ∧
      less_than_or_eqU8 255 127 = 255 ∧ greater_than_or_eqU8 0 127 = 255) :=
  ⟨by decide, claim_C5 129 127 (by decide) (by decide)⟩

/-- Claim C6: `exclusive_range(MIN, MAX)` holds at a byte exactly when the
byte lies strictly between the bounds, on both backends; in particular it is
false at every byte whenever `MAX - MIN ≤ 1`. -/
theorem claim_C6 (mn mx v : Nat) (h1 : mn ≤ mx) (h2 : mx ≤ 255) (h3 : v ≤ 255) :
    ((laneTrueI8 (exclusive_rangeI8 mn mx v) = true) ↔ (mn < v ∧ v < mx)) ∧
    ((laneTrueU8 (exclusive_rangeU8 mn mx v) = true) ↔ (mn < v ∧ v < mx)) ∧
    (mx - mn ≤ 1 →
      laneTrueI8 (exclusive_rangeI8 mn mx v) = false ∧
        laneTrueU8 (exclusive_rangeU8 mn mx v) = false) := by
  have hI := exclusive_rangeI8_spec mn mx v h1 h2 h3
  have hU := exclusive_rangeU8_spec mn mx v
  refine ⟨hI, hU, fun hd => ⟨?_, ?_⟩⟩
  · cases hb : laneTrueI8 (exclusive_rangeI8 mn mx v) with
    | false => rfl
    | true => exact absurd (hI.mp hb) (by omega)
  · cases hb : laneTrueU8 (exclusive_rangeU8 mn mx v) with
    | false => rfl
    | true => exact absurd (hU.mp hb) (by omega)

theorem claim_C6_witness :
    ((100 : Nat) ≤ 200 ∧ (200 : Nat) ≤ 255 ∧ (100 : Nat) ≤ 255) ∧
    (((laneTrueI8 (exclusive_rangeI8 100 200 100) = true) ↔ (100 < 100 ∧ 100 < 200)) ∧
      ((laneTrueU8 (exclusive_rangeU8 100 200 100) = true) ↔ (100 < 100 ∧ 100 < 200)) ∧
      (200 - 100 ≤ 1 →
        laneTrueI8 (exclusive_rangeI8 100 200 100) = false ∧
          laneTrueU8 (exclusive_rangeU8 100 200 100) = false)) :=
  ⟨by decide, claim_C6 100 200 100 (by decide) (by decide) (by decide)⟩

/-- Claim C7: `one_of!` on each lane is exactly-one for two and three
operands; for four operands it is odd parity minus the all-four case, so it
holds when exactly one or exactly three operands hold; the three-operand
example `one_of(eq 0, eq 1, eq 2)` on bytes `0, 1, 2, 3` yields
`true, true, true, false`. -/
theorem claim_C7 :
    (∀ pa pb : Cond, ∀ w : Vec, w.length = 16 → (∀ x ∈ w, x < 256) →
      laneBits (oneOf2 (evalV pa) (evalV pb) w) =
        w.map (fun v => decide
          ((if evalB pa v then 1 else 0) + (if evalB pb v then 1 else 0) = 1))) ∧
    (∀ pa pb pc : Cond, ∀ w : Vec, w.length = 16 → (∀ x ∈ w, x < 256) →
      laneBits (oneOf3 (evalV pa) (evalV pb) (evalV pc) w) =
        w.map (fun v => decide
          ((if evalB pa v then 1 else 0) + (if evalB pb v then 1 else 0) +
            (if evalB pc v then 1 else 0) = 1))) ∧
    (∀ pa pb pc pd : Cond, ∀ w : Vec, w.length = 16 → (∀ x ∈ w, x < 256) →
      laneBits (oneOf4 (evalV pa) (evalV pb) (evalV pc) (evalV pd) w) =
        w.map (fun v =>
          let s := (if evalB pa v then 1 else 0) + (if evalB pb v then 1 else 0) +
            (if evalB pc v then 1 else 0) + (if evalB pd v then 1 else 0)
          decide (s = 1 ∨ s = 3))) ∧
    (laneBits (oneOf3 (evalV (Cond.ceq 0)) (evalV (Cond.ceq 1)) (evalV (Cond.ceq 2))
        ([0, 1, 2, 3] ++ List.replicate 12 4))).take 4 = [true, true, true, false] := by
  refine ⟨?_, ?_, ?_, by decide⟩
  · intro pa pb w hlen hw
    rw [laneBits_oneOf2 pa pb w hlen hw]
    refine List.map_congr_left fun v _ => ?_
    cases hA : evalB pa v <;> cases hB : evalB pb v <;> rfl
  · intro pa pb pc w hlen hw
    rw [laneBits_oneOf3 pa pb pc w hlen hw]
    refine List.map_congr_left fun v _ => ?_
    cases hA : evalB pa v <;> cases hB : evalB pb v <;> cases hC : evalB pc v <;> rfl
  · intro pa pb pc pd w hlen hw
    rw [laneBits_oneOf4 pa pb pc pd w hlen hw]
    refine List.map_congr_left fun v _ => ?_
    cases hA : evalB pa v <;> cases hB : evalB pb v <;> cases hC : evalB pc v <;>
      cases hD : evalB pd v <;> rfl

theorem claim_C7_witness :
    ((List.replicate 16 2 : List Nat).length = 16 ∧
      (∀ x ∈ (List.replicate 16 2 : List Nat), x < 256)) ∧
    laneBits (oneOf3 (evalV (Cond.ceq 0)) (evalV (Cond.ceq 1)) (evalV (Cond.ceq 2))
        (List.replicate 16 2)) =
      (List.replicate 16 2 : List Nat).map (fun v => decide
        ((if evalB (Cond.ceq 0) v then 1 else 0) + (if evalB (Cond.ceq 1) v then 1 else 0) +
          (if evalB (Cond.ceq 2) v then 1 else 0) = 1)) :=
  ⟨by decide, claim_C7.2.1 (Cond.ceq 0) (Cond.ceq 1) (Cond.ceq 2) (List.replicate 16 2)
    (by decide) (by decide)⟩

/-- Claim C4: `for_all_ensure_ct` returns the same boolean as
`for_all_ensure` for every buffer and every condition, although it
accumulates with a bitwise AND instead of short-circuiting. -/
theorem claim_C4 (data : List Nat) (cond : Vec → Vec) :
    for_all_ensure_ct data cond = for_all_ensure data cond :=
  for_all_ensure_ct_eq data cond

/-- Claim C8: on a buffer of length at least 16, every window the traversal
reads starts at an offset `s` with `s + 16 ≤ len`; the windows are the full
strides `0, 16, 32, …` followed, exactly when the strides do not cover the
buffer, by a single tail window starting at `len - 16` (so its last byte is
the buffer's last byte); `for_all_ensure` is exactly the fold of the
per-window test over those windows. -/
theorem claim_C8 (len : Nat) (h16 : 16 ≤ len) :
    (∀ s ∈ windowStarts len 0, s + 16 ≤ len) ∧
    (windowStarts len 0 =
      List.range' 0 (len / 16) 16 ++ (if len % 16 = 0 then [] else [len - 16])) ∧
    (len % 16 ≠ 0 → (windowStarts len 0).count (len - 16) = 1 ∧ (len - 16) + 16 = len) ∧
    (∀ (data : List Nat) (cond : Vec → Vec), data.length = len →
      for_all_ensure data cond =
        (windowStarts len 0).all (fun s => ensure (load_unchecked (data.drop s)) cond)) := by
  have hclosed := windowStarts_closed len 0 (by omega)
  simp only [Nat.sub_zero] at hclosed
  refine ⟨windowStarts_bounds len h16 0, hclosed, fun hm => ⟨?_, by omega⟩, ?_⟩
  · rw [hclosed, if_neg hm, List.count_append]
    have hz : List.count (len - 16) (List.range' 0 (len / 16) 16) = 0 := by
      rw [List.count_eq_zero]
      intro hmem
      obtain ⟨i, hi, heq⟩ := List.mem_range'.mp hmem
      omega
    rw [hz]
    simp
  · intro data cond hl
    subst hl
    rw [for_all_ensure, if_pos h16]
    exact ensureLoop_eq_windows data cond 0

theorem claim_C8_witness :
    (16 : Nat) ≤ 35 ∧
    ((∀ s ∈ windowStarts 35 0, s + 16 ≤ 35) ∧
      (windowStarts 35 0 =
        List.range' 0 (35 / 16) 16 ++ (if 35 % 16 = 0 then [] else [35 - 16])) ∧
      (35 % 16 ≠ 0 → (windowStarts 35 0).count (35 - 16) = 1 ∧ (35 - 16) + 16 = 35) ∧
      (∀ (data : List Nat) (cond : Vec → Vec), data.length = 35 →
        for_all_ensure data cond =
          (windowStarts 35 0).all (fun s => ensure (load_unchecked (data.drop s)) cond))) :=
  ⟨by decide, claim_C8 35 (by decide)⟩

/-- Claim C9, counterexample: on the fallback backend the claim "each lane of
a predicate's output is all bits set or all bits clear" fails: `eq(0)` applied
to a register of zero bytes produces lanes of value `1`, which is neither `0`
nor `255`. -/
theorem claim_C9_counterexample :
    evalV (Cond.ceq 0) (List.replicate 16 0) = List.replicate 16 1 ∧
    (1 : Nat) ≠ 0 ∧ (1 : Nat) ≠ 255 := by
  refine ⟨by decide, by decide, by decide⟩

/-- Claim C9, amended: on the fallback backend each lane of a compiled
predicate's output carries the lane's boolean in its lowest bit (set exactly
when the predicate holds on that lane's byte), and `MoveMask::new` reads
exactly these lowest bits, so the engine never depends on the other lane
bits. -/
theorem claim_C9_amended (c : Cond) (w : Vec) (hlen : w.length = 16)
    (hw : ∀ b ∈ w, b < 256) :
    laneBits (evalV c w) = w.map (evalB c) ∧
    moveMask (evalV c w) = boolsToNat (w.map (evalB c)) :=
  ⟨laneBits_evalV c w hlen hw, moveMask_evalV c w hlen hw⟩

theorem claim_C9_witness :
    ((List.replicate 16 3 : List Nat).length = 16 ∧
      (∀ b ∈ (List.replicate 16 3 : List Nat), b < 256)) ∧
    (laneBits (evalV (Cond.cnot (Cond.ceq 3)) (List.replicate 16 3)) =
        (List.replicate 16 3 : List Nat).map (evalB (Cond.cnot (Cond.ceq 3))) ∧
      moveMask (evalV (Cond.cnot (Cond.ceq 3)) (List.replicate 16 3)) =
        boolsToNat ((List.replicate 16 3 : List Nat).map (evalB (Cond.cnot (Cond.ceq 3))))) :=
  ⟨by decide, claim_C9_amended (Cond.cnot (Cond.ceq 3)) (List.replicate 16 3)
    (by decide) (by decide)⟩

/-- Claim C10: on buffers shorter than one register, the facade results
depend only on the buffer's own bytes, never on the zero padding of
`load_partial`: `search` agrees with the first-match of the buffer itself
(hence returns `none` or an index below the length), and both ensure
variants agree with the conjunction over the buffer's own bytes; on the
empty buffer `search` is `none` and both ensure variants are `true`. -/
theorem claim_C10 (data : List Nat) (c : Cond) (hlen : data.length < 16)
    (hw : ∀ b ∈ data, b < 256) :
    search data (evalV c) = firstIdx (evalB c) data ∧
    (∀ i, search data (evalV c) = some i → i < data.length) ∧
    for_all_ensure data (evalV c) = data.all (evalB c) ∧
    for_all_ensure_ct data (evalV c) = data.all (evalB c) ∧
    search ([] : List Nat) (evalV c) = none ∧
    for_all_ensure ([] : List Nat) (evalV c) = true ∧
    for_all_ensure_ct ([] : List Nat) (evalV c) = true := by
  refine ⟨search_eq_firstIdx c data hw, ?_, for_all_ensure_eq_all c data hw, ?_, ?_, ?_, ?_⟩
  · intro i h
    rw [search_eq_firstIdx c data hw] at h
    exact firstIdx_lt_length h
  · rw [for_all_ensure_ct_eq data (evalV c)]
    exact for_all_ensure_eq_all c data hw
  · rw [search_eq_firstIdx c [] (by simp)]
    rfl
  · rw [for_all_ensure_eq_all c [] (by simp)]
    rfl
  · rw [for_all_ensure_ct_eq [] (evalV c), for_all_ensure_eq_all c [] (by simp)]
    rfl

theorem claim_C10_witness :
    (([9, 9, 9] : List Nat).length < 16 ∧ (∀ b ∈ ([9, 9, 9] : List Nat), b < 256)) ∧
    (search [9, 9, 9] (evalV (Cond.ceq 4)) = firstIdx (evalB (Cond.ceq 4)) [9, 9, 9] ∧
      for_all_ensure [9, 9, 9] (evalV (Cond.ceq 4)) =
        ([9, 9, 9] : List Nat).all (evalB (Cond.ceq 4))) :=
  ⟨by decide,
    (claim_C10 [9, 9, 9] (Cond.ceq 4) (by decide) (by decide)).1,
    (claim_C10 [9, 9, 9] (Cond.ceq 4) (by decide) (by decide)).2.2.1⟩

end SwiftCheck
